import Mathlib

/-!
Verification of the multi-source context collector (`data_collector.py`).

The development shallowly embeds the collector's pure logic in Lean:

* text helpers model the Python string primitives the collector uses
  (`str.splitlines`, `str.strip`, `str.split`, `str.lower`);
* `pyShorten` models `textwrap.shorten(text, width, placeholder=" …")`
  following its documented contract (collapse whitespace runs to single
  spaces, then drop whole words from the end until the remainder plus the
  placeholder fits; an over-long first word leaves just the bare
  placeholder; a non-positive width raises `ValueError`, modelled as
  `.error`);
* `collect` models `DataCollector.collect` (data_collector.py lines 64-83):
  the per-source dispatch/skip/catch loop, line dedup and truncation.
  Network fetchers are environment parameters of type
  `String → Except String String`: `.ok txt` is a returned text, `.error`
  is a raised exception;
* the memo cache, the wikipedia fetcher, the dbpedia slug, homepage domain
  guessing and the search-snippet harvest are modelled further below.

Unicode-only refinements of CPython that no claim depends on (the exotic
members of the whitespace table, `\w` beyond ASCII-plus-underscore, and
`textwrap`'s hyphen breaking of over-long words) are noted at the relevant
definition.
-/

namespace DataCollector

/-- Whitespace characters recognised by Python's `str.split()` / `str.strip()`
(ASCII whitespace plus the common Unicode space characters). -/
def isPySpace (c : Char) : Bool :=
  c = ' ' || c = '\t' || c = '\n' || c = '\r' || c = '\x0b' || c = '\x0c' ||
  c = '\x1c' || c = '\x1d' || c = '\x1e' || c = '\x85' || c = '\xa0' ||
  c = '\u1680' || ('\u2000' ≤ c && c ≤ '\u200A') || c = '\u2028' ||
  c = '\u2029' || c = '\u202F' || c = '\u205F' || c = '\u3000'

/-- Line-break characters recognised by Python's `str.splitlines`. -/
def isLineBreak (c : Char) : Bool :=
  c = '\n' || c = '\r' || c = '\x0b' || c = '\x0c' || c = '\x1c' ||
  c = '\x1d' || c = '\x1e' || c = '\x85' || c = '\u2028' || c = '\u2029'

/-- Worker for `pySplitlines`: `acc` holds the current line reversed. -/
def splitlinesAux : List Char → List Char → List String
  | acc, [] => if acc = [] then [] else [String.mk acc.reverse]
  | acc, '\r' :: '\n' :: rest => String.mk acc.reverse :: splitlinesAux [] rest
  | acc, c :: rest =>
    if isLineBreak c then String.mk acc.reverse :: splitlinesAux [] rest
    else splitlinesAux (c :: acc) rest

/-- Python `str.splitlines()`: split at line boundaries (`\r\n` counts as a
single boundary); a trailing boundary produces no empty final line and the
empty string yields `[]`. -/
def pySplitlines (s : String) : List String :=
  splitlinesAux [] s.toList

/-- Python `str.strip()`: remove leading and trailing whitespace. -/
def pyStrip (s : String) : String :=
  String.mk (((s.toList.dropWhile isPySpace).reverse.dropWhile isPySpace).reverse)

/-- Python `str.lower()` (ASCII case mapping suffices for this code base). -/
def pyLower (s : String) : String :=
  String.mk (s.toList.map Char.toLower)

/-- Worker for `pySplitWs`: `acc` holds the current word reversed. -/
def splitWsAux : List Char → List Char → List String
  | acc, [] => if acc = [] then [] else [String.mk acc.reverse]
  | acc, c :: rest =>
    if isPySpace c then
      if acc = [] then splitWsAux [] rest
      else String.mk acc.reverse :: splitWsAux [] rest
    else splitWsAux (c :: acc) rest

/-- Python `str.split()` with no argument: split on runs of whitespace,
discarding empty fields. -/
def pySplitWs (s : String) : List String :=
  splitWsAux [] s.toList

/-- Python `sep.join(parts)`. -/
def joinWith (sep : String) : List String → String
  | [] => ""
  | [w] => w
  | w :: ws => w ++ sep ++ joinWith sep ws

/-! ## `textwrap.shorten` (used at data_collector.py line 82)

CPython's `shorten(text, width, placeholder=" …")` builds a
`TextWrapper(width=width, max_lines=1)` and returns
`fill(' '.join(text.split()))`.  With the wrapper's default settings the
pipeline is: collapse whitespace runs to single spaces; tokenize the
collapsed text into chunks with `wordsep_re` — whitespace runs, em-dash
runs, and word fragments split after eligible hyphens
(`break_on_hyphens=True`); fill one line greedily; break a rejected chunk
wider than the whole line (`break_long_words=True`, preferring its last
fitting hyphen); drop a trailing whitespace chunk; then, as `max_lines` is
reached, pop chunks from the right until the line plus the placeholder
`" …"` fits, degenerating to the bare stripped `"…"` when nothing fits.
The `\w`-derived character classes are modelled on their ASCII fragment,
as elsewhere in this development.  A non-positive width makes
`_wrap_chunks` raise `ValueError`, modelled as `.error`. -/

/-- A character matched by the regex `\w` (ASCII fragment: letters, digits,
underscore). -/
def isWordChar (c : Char) : Bool :=
  c.isAlphanum || c = '_'

/-- `textwrap`'s whitespace set (the string `'\t\n\x0b\x0c\r '`), used by
`wordsep_re` — deliberately smaller than `str.split()`'s set. -/
def twSpace (c : Char) : Bool :=
  c = '\t' || c = '\n' || c = '\x0b' || c = '\x0c' || c = '\r' || c = ' '

/-- The `wordsep_re` class `[^\d\W]` (a word character that is not a
digit), ASCII fragment: a letter or underscore. -/
def twLetter (c : Char) : Bool :=
  c.isAlpha || c = '_'

/-- The `wordsep_re` class `word_punct = [\w!"\x27&.,?]`. -/
def wordPunct (c : Char) : Bool :=
  isWordChar c || c = '!' || c = '"' || c = Char.ofNat 39 || c = '&' ||
  c = '.' || c = ',' || c = '?'

/-- Lookbehind helper: is the character just before the current scan
position `word_punct`?  `revPre` lists all preceding characters, most
recent first. -/
def prevWp : List Char → Bool
  | p :: _ => wordPunct p
  | [] => false

/-- The pattern `letter -? letter`, read along a character list.  Used both
as the lookbehind of the hyphenated-word rule (on the reversed preceding
text: `(?<=lt lt -)` or `(?<=lt - lt -)` become, after peeling the consumed
hyphen, this same shape) and as its lookahead `(?= lt -? lt)`. -/
def ltHyphenPat : List Char → Bool
  | a :: b :: rest =>
    twLetter a && (twLetter b ||
      ((b = '-') && (match rest with
        | c :: _ => twLetter c
        | [] => false)))
  | _ => false

/-- The lookahead `(?=-{2,}\w)`: at least two hyphens followed by a word
character (the greedy `-{2,}` of the em-dash rule matches exactly the
maximal hyphen run, since any shorter run is followed by a hyphen, not a
`\w`). -/
def emAhead (rest : List Char) : Bool :=
  let run := rest.takeWhile (fun x => decide (x = '-'))
  2 ≤ run.length && (match rest.drop run.length with
    | d :: _ => isWordChar d
    | [] => false)

/-- The word alternative of `wordsep_re`: a lazy `\S+?` followed by the
first position satisfying, in pattern order, (a) a consumed hyphen with the
hyphenated-word lookbehind/lookahead, (b) end of word (whitespace or end of
string ahead), or (c) the em-dash boundary `(?<=word_punct)(?=-{2,}\w)`.
`revPre` holds every character before the scan position (most recent
first), `acc` the characters consumed into this chunk (reversed); returns
the chunk and the remaining text. -/
def wordScan : List Char → List Char → List Char → List Char × List Char
  | _, acc, [] => (acc.reverse, [])
  | revPre, acc, r :: rest2 =>
    if (r = '-') && ltHyphenPat revPre && ltHyphenPat rest2 then
      ((r :: acc).reverse, rest2)
    else if twSpace r then (acc.reverse, r :: rest2)
    else if prevWp revPre && emAhead (r :: rest2) then (acc.reverse, r :: rest2)
    else wordScan (r :: revPre) (r :: acc) rest2

/-- The tokenizer of `TextWrapper._split` under `break_on_hyphens=True`:
`re.split` with `wordsep_re` finds contiguous matches (a match starts at
every position), so the text partitions into whitespace runs, em-dash runs
between words, and word fragments.  `fuel` bounds the recursion (each chunk
consumes at least one character, so `fuel = cs.length` always suffices);
`revPre` carries the already-emitted text, most recent character first, for
the rules' lookbehinds. -/
def twSplitLoop : Nat → List Char → List Char → List (List Char)
  | 0, _, _ => []
  | _ + 1, _, [] => []
  | fuel + 1, revPre, c :: rest =>
    if twSpace c then
      let run := (c :: rest).takeWhile twSpace
      run :: twSplitLoop fuel (run.reverse ++ revPre) ((c :: rest).dropWhile twSpace)
    else if prevWp revPre && emAhead (c :: rest) then
      let run := (c :: rest).takeWhile (fun x => decide (x = '-'))
      run :: twSplitLoop fuel (run.reverse ++ revPre)
        ((c :: rest).dropWhile (fun x => decide (x = '-')))
    else
      (wordScan (c :: revPre) [c] rest).1 ::
        twSplitLoop fuel ((wordScan (c :: revPre) [c] rest).1.reverse ++ revPre)
          (wordScan (c :: revPre) [c] rest).2

/-- Chunks of a text, as `TextWrapper._split_chunks` produces them (the
preceding `_munge_whitespace` is the identity on already-collapsed text). -/
def twSplit (cs : List Char) : List (List Char) :=
  twSplitLoop cs.length [] cs

/-- `chunk.strip() == ''` for a `wordsep_re` chunk. -/
def chunkIsSpace (l : List Char) : Bool :=
  l.all twSpace

/-- `cur_len`: the summed length of a line's chunks. -/
def sumLen (l : List (List Char)) : Nat :=
  (l.map List.length).sum

/-- The greedy inner loop of `_wrap_chunks`: move chunks onto the current
line while `cur_len + len(chunk) <= width`; stop at the first chunk that
does not fit.  Returns the line and the remaining chunks. -/
def greedyTake (width curLen : Nat) : List (List Char) → List (List Char) × List (List Char)
  | [] => ([], [])
  | ch :: rest =>
    if curLen + ch.length ≤ width then
      ((ch :: (greedyTake width (curLen + ch.length) rest).1),
       (greedyTake width (curLen + ch.length) rest).2)
    else ([], ch :: rest)

/-- `chunk.rfind('-', 0, bound)` restricted to the prefix: the greatest
index of a hyphen in `l`. -/
def lastHyphenIdx : List Char → Option Nat
  | [] => none
  | c :: cs =>
    match lastHyphenIdx cs with
    | some i => some (i + 1)
    | none => if c = '-' then some 0 else none

/-- `TextWrapper._handle_long_word`, reached when the first remaining chunk
is wider than the whole line: with `break_long_words=True` the chunk is cut
at `space_left = width - cur_len` characters or, preferring hyphens
(`break_on_hyphens=True`), just after the last hyphen in that window when
the hyphen has a positive index and a non-hyphen somewhere before it; the
cut head joins the line and the tail stays in the chunk queue. -/
def handleLong (width curLen : Nat) (line rest : List (List Char)) :
    List (List Char) × List (List Char) :=
  match rest with
  | [] => (line, [])
  | ch :: rest2 =>
    if width < ch.length then
      let spaceLeft := if width < 1 then 1 else width - curLen
      let e :=
        if spaceLeft < ch.length then
          match lastHyphenIdx (ch.take spaceLeft) with
          | some i =>
            if 0 < i ∧ (ch.take i).any (fun c => decide (c ≠ '-')) then i + 1
            else spaceLeft
          | none => spaceLeft
        else spaceLeft
      (line ++ [ch.take e], ch.drop e :: rest2)
    else (line, ch :: rest2)

/-- `drop_whitespace`: delete the line's trailing chunk when it is pure
whitespace. -/
def dropTrailingWs (line : List (List Char)) : List (List Char) :=
  match line.getLast? with
  | some c => if chunkIsSpace c then line.dropLast else line
  | none => line

/-- The placeholder loop of `_wrap_chunks` once `max_lines` is reached,
over the REVERSED line: accept the line as soon as its last chunk is
non-whitespace and `cur_len + len(" …") <= width`, otherwise pop the last
chunk; `none` when the line empties (the result degenerates to the
stripped placeholder). -/
def popFitRev (width : Nat) : List (List Char) → Option (List (List Char))
  | [] => none
  | c :: rest =>
    if chunkIsSpace c = false ∧ sumLen (c :: rest) + 2 ≤ width then some (c :: rest)
    else popFitRev width rest

/-- The `_wrap_chunks` condition allowing the built line to stand without a
placeholder: no chunk remains, or only a single whitespace chunk does. -/
def restAllowsFit : List (List Char) → Bool
  | [] => true
  | [c] => chunkIsSpace c
  | _ => false

/-- One iteration of `_wrap_chunks` with `max_lines=1` — the whole wrap for
`shorten`'s inputs, whose first chunk is always a word: greedy fill, the
long-word break, the trailing-whitespace drop, then either the bare line
(everything consumed fits) or the placeholder search. -/
def wrapOne (width : Nat) (chunks : List (List Char)) : List Char :=
  let gr := greedyTake width 0 chunks
  let hl := handleLong width (sumLen gr.1) gr.1 gr.2
  let line2 := dropTrailingWs hl.1
  if restAllowsFit hl.2 && decide (sumLen line2 ≤ width) then line2.flatten
  else
    match popFitRev width line2.reverse with
    | some outRev => outRev.reverse.flatten ++ [' ', '…']
    | none => ['…']

/-- Model of `textwrap.shorten(text, width, placeholder=" …")` as called at
data_collector.py line 82: collapse whitespace runs to single spaces
(`' '.join(text.split())`); if the collapsed text fits in `width` return it
unchanged (the wrap would put every chunk on the single line); otherwise
wrap its chunk list.  A width of zero (more generally, a non-positive
Python width) raises `ValueError` in `_wrap_chunks` — for this placeholder
the invalid-width and placeholder-too-large checks reject exactly
`width = 0` — modelled as `.error`. -/
def pyShorten (text : String) (width : Nat) : Except String String :=
  if width = 0 then .error "placeholder too large for max width"
  else
    let collapsed := joinWith " " (pySplitWs text)
    if collapsed.length ≤ width then .ok collapsed
    else .ok (String.mk (wrapOne width (twSplit collapsed.toList)))

example : pySplitlines "" = [] := by decide
example : pySplitlines "a\nb\r\nc\n" = ["a", "b", "c"] := by decide
example : pyStrip "  a    b\t" = "a    b" := by decide
example : pySplitWs "a    b" = ["a", "b"] := by decide
example : twSplit "ab well-known".toList =
    [['a', 'b'], [' '], ['w', 'e', 'l', 'l', '-'], ['k', 'n', 'o', 'w', 'n']] := by
  decide
example : twSplit "foo--bar".toList =
    [['f', 'o', 'o'], ['-', '-'], ['b', 'a', 'r']] := by decide
example : twSplit "x-yz".toList = [['x', '-', 'y', 'z']] := by decide
example : pyShorten "a    b" 5 = .ok "a b" := rfl
example : pyShorten "Alpha Beta Gamma Delta Epsilon" 20 = .ok "Alpha Beta Gamma …" := rfl
example : pyShorten "ab well-known" 10 = .ok "ab well- …" := rfl
example : pyShorten "abcdef" 3 = .ok "…" := rfl

/-! ## The orchestrator: `DataCollector.collect` (lines 64-83)

The fetcher table `_FETCHERS` is modelled as a partial map from source-kind
names to fetchers; a fetcher maps the query to `.ok text` (a returned
string) or `.error e` (a raised exception).  The network and HTML parsing
behind each fetcher live in this environment parameter. -/

/-- The type of the `_FETCHERS` dispatch table (line 53-61). -/
abbrev Fetchers := String → Option (String → Except String String)

/-- The seven source kinds registered in `__post_init__` (lines 53-61). -/
def FETCHER_KINDS : List String :=
  ["wikipedia", "wikidata", "homepage", "news", "duckduckgo", "dbpedia", "search"]

/-- The inner loop body of `collect` (lines 73-76): `p.1` is the `seen` set,
`p.2` the `chunks` list; a line is appended only when not yet seen. -/
def addLine (p : List String × List String) (line : String) :
    List String × List String :=
  if line ∈ p.1 then p else (line :: p.1, p.2 ++ [line])

/-- Line preparation of `collect` (line 73):
`filter(None, map(str.strip, txt.splitlines()))`. -/
def stripLines (txt : String) : List String :=
  ((pySplitlines txt).map pyStrip).filter (fun l => decide (l ≠ ""))

/-- The try-block of one `collect` iteration (lines 71-78): a raised
exception (`.error`) is caught and contributes nothing; a returned text has
its stripped nonempty lines folded into `seen`/`chunks`. -/
def processSource (acc : List String × List String) (r : Except String String) :
    List String × List String :=
  match r with
  | .error _ => acc
  | .ok txt => (stripLines txt).foldl addLine acc

/-- One iteration of the source loop (lines 66-78): unknown source kinds
(absent from the table, line 67-70) are skipped, registered ones run
through the try-block. -/
def sourceStep (fetchers : Fetchers) (inst : String)
    (acc : List String × List String) (src : String) :
    List String × List String :=
  match fetchers src with
  | none => acc
  | some fn => processSource acc (fn inst)

/-- The full source loop of `collect` (lines 65-78), returning `chunks`. -/
def collectChunks (fetchers : Fetchers) (sources : List String) (inst : String) :
    List String :=
  (sources.foldl (sourceStep fetchers inst) ([], [])).2

/-- `DataCollector.collect` (lines 64-83): merge the deduplicated lines with
newlines and shorten when the merge exceeds `maxChars`.  The only `.error`
outcome is `textwrap.shorten`'s `ValueError` on a non-positive width, which
is raised outside the per-source try/except. -/
def collect (fetchers : Fetchers) (sources : List String) (inst : String)
    (maxChars : Nat) : Except String String :=
  let merged := joinWith "\n" (collectChunks fetchers sources inst)
  if maxChars < merged.length then pyShorten merged maxChars else .ok merged

/-- The stripped nonempty lines contributed by one source: nothing for a
skipped kind or a caught exception. -/
def linesOf (fetchers : Fetchers) (inst : String) (src : String) : List String :=
  match fetchers src with
  | none => []
  | some fn =>
    match fn inst with
    | .error _ => []
    | .ok txt => stripLines txt

/-- The stripped nonempty lines contributed by each source in request order
(skipped kinds and caught exceptions contribute nothing), concatenated.
`collect` is proved to emit exactly the first occurrence of each line of
this list. -/
def sourceLines (fetchers : Fetchers) (sources : List String) (inst : String) :
    List String :=
  (sources.map (linesOf fetchers inst)).flatten

/-- First-occurrence deduplication, stated the way the spec describes the
merge: keep each line the first time it appears, drop every later duplicate.
This is the spec-side reference definition that `collectChunks` is proved to
refine. -/
def firstDedup : List String → List String
  | [] => []
  | x :: xs => x :: firstDedup (xs.filter fun y => decide (y ≠ x))
  termination_by l => l.length
  decreasing_by
    simp only [List.length_cons]
    exact Nat.lt_succ_of_le (List.length_filter_le _ _)

/-! ## The result cache: `DataCollector._memoize` (lines 86-92)

`self._memo` is a Python dict, i.e. an insertion-ordered association list
with unique keys; keys are `(source-tag, lowercased query)` pairs. -/

/-- Cache keys: `(source-tag, normalized query)`. -/
abbrev CKey := String × String

/-- The cache state: a Python dict as an insertion-ordered assoc list. -/
abbrev Memo := List (CKey × String)

/-- `self._memo.get(key)` (line 88). -/
def dictGet : Memo → CKey → Option String
  | [], _ => none
  | (k2, v) :: rest, k => if k2 = k then some v else dictGet rest k

/-- `self._memo[key] = val`: overwrite in place when the key exists
(Python dicts keep the original insertion position), else append. -/
def dictSet : Memo → CKey → String → Memo
  | [], k, v => [(k, v)]
  | (k2, v2) :: rest, k, v =>
    if k2 = k then (k, v) :: rest else (k2, v2) :: dictSet rest k v

/-- `_MEMO_LIMIT` (line 42). -/
def MEMO_LIMIT : Nat := 512

/-- The write path of `_memoize` (lines 89-91): when the dict already holds
at least `limit` entries, pop the first-inserted key, then assign.  The
read path (line 88) is `dictGet` and does not touch the state. -/
def memoize (limit : Nat) (m : Memo) (k : CKey) (v : String) : Memo :=
  dictSet (if limit ≤ m.length then m.drop 1 else m) k v

/-- Fold a batch of insertions through `memoize`. -/
def insertAll (limit : Nat) (m : Memo) (pairs : Memo) : Memo :=
  pairs.foldl (fun acc p => memoize limit acc p.1 p.2) m

example : memoize 2 [(("a", ""), "1"), (("b", ""), "2")] ("c", "") "3" =
    [(("b", ""), "2"), (("c", ""), "3")] := rfl
example : memoize 2 [(("a", ""), "1"), (("b", ""), "2")] ("b", "") "9" =
    [(("b", ""), "9")] := rfl

/-! ## URL encoding and the per-source upstream query text -/

/-- UTF-8 bytes of a character, computed from its code point. -/
def utf8Bytes (c : Char) : List Nat :=
  let n := c.toNat
  if n < 0x80 then [n]
  else if n < 0x800 then [0xC0 + n / 0x40, 0x80 + n % 0x40]
  else if n < 0x10000 then
    [0xE0 + n / 0x1000, 0x80 + (n / 0x40) % 0x40, 0x80 + n % 0x40]
  else
    [0xF0 + n / 0x40000, 0x80 + (n / 0x1000) % 0x40,
     0x80 + (n / 0x40) % 0x40, 0x80 + n % 0x40]

/-- Uppercase hexadecimal digit. -/
def hexDigit (n : Nat) : Char :=
  if n < 10 then Char.ofNat (48 + n) else Char.ofNat (55 + n)

/-- Percent-encode one byte as `%XX`. -/
def pctByte (b : Nat) : List Char :=
  ['%', hexDigit (b / 16), hexDigit (b % 16)]

/-- One character under `urllib.parse.quote_plus`: ASCII letters, digits and
`_ . - ~` pass through, a space becomes `+`, everything else is
percent-encoded byte by byte. -/
def quotePlusChar (c : Char) : List Char :=
  if c = ' ' then ['+']
  else if c.isAlpha || c.isDigit || c = '_' || c = '.' || c = '-' || c = '~' then [c]
  else ((utf8Bytes c).map pctByte).flatten

/-- `urllib.parse.quote_plus` with its default empty safe set. -/
def quotePlus (s : String) : String :=
  String.mk (s.toList.flatMap quotePlusChar)

/-- The wikipedia summary URL (line 99): the literal query, URL-encoded, is
appended to the REST endpoint. -/
def wikiURL (inst : String) : String :=
  "https://en.wikipedia.org/api/rest_v1/page/summary/" ++ quotePlus inst

/-- Python `s.endswith(suffix)`, via the character lists (the built-in
`String.endsWith` does not reduce in the kernel). -/
def pyEndsWith (s suffix : String) : Bool :=
  suffix.toList.isSuffixOf s.toList

/-- Python `s.replace(a, b)` for single-character `a` and `b`, the only form
this code base uses (line 146). -/
def pyReplaceChar (a b : Char) (s : String) : String :=
  String.mk (s.toList.map fun c => if c = a then b else c)

/-- The dbpedia resource slug (line 146): the query has its spaces replaced
by underscores before URL-encoding, and this slug is what the SPARQL query
sends upstream. -/
def dbpediaSlug (inst : String) : String :=
  quotePlus (pyReplaceChar ' ' '_' inst)

/-! ## The wikipedia fetcher: `_fetch_wikipedia_summary` (lines 95-104)

The upstream response is an oracle from the request URL to a status code
and the parsed `extract` field.  The fetcher returns
`(outcome, new cache state, number of network requests issued)`;
`raise_for_status` raising `requests.HTTPError` on a 4xx/5xx status is the
`.error` outcome. -/

/-- Shape of the wikipedia REST response as the fetcher consumes it. -/
structure WikiResp where
  status : Nat
  extract : String

/-- `_fetch_wikipedia_summary` (lines 95-104): serve from cache when the key
`("wiki", inst.lower())` is present; otherwise issue one GET; a 404 returns
the empty string WITHOUT caching it (line 101-102); 4xx/5xx raises; a
success caches and returns the extract. -/
def fetch_wikipedia_summary (net : String → WikiResp) (m : Memo) (inst : String) :
    Except String String × Memo × Nat :=
  let k : CKey := ("wiki", pyLower inst)
  match dictGet m k with
  | some c => (.ok c, m, 0)
  | none =>
    let r := net (wikiURL inst)
    if r.status = 404 then (.ok "", m, 1)
    else if 400 ≤ r.status ∧ r.status < 600 then (.error "HTTPError", m, 1)
    else (.ok r.extract, memoize MEMO_LIMIT m k r.extract, 1)

/-! ## Homepage candidate generation: `_guess_domains` (lines 210-217) -/

/-- `_TLDS` (line 28). -/
def TLDS : List String := ["edu", "gov", "ac", "org", "com", "net", "tech"]

/-- `_MAX_TRIES` (line 29). -/
def MAX_TRIES : Nat := 6

/-- The base slug of `_guess_domains` (lines 212-213):
`"".join(re.sub(r"[^\w]", " ", name).lower().split())` — non-word
characters become spaces, the result is lowercased, split on whitespace and
concatenated. -/
def baseSlug (name : String) : String :=
  String.join (pySplitWs (String.mk (name.toList.map
    fun c => if isWordChar c then c.toLower else ' ')))

/-- `_guess_domains` (lines 210-217): the base slug, plus the slug with a
trailing `"university"` stripped, crossed with `_TLDS` in order and capped
at `_MAX_TRIES`. -/
def guess_domains (name : String) : List String :=
  let base := baseSlug name
  let roots := if pyEndsWith base "university" then [base, base.dropRight 10] else [base]
  (roots.flatMap fun r => TLDS.map fun t => r ++ "." ++ t).take MAX_TRIES

example : baseSlug "Acme University" = "acmeuniversity" := by decide
example : guess_domains "Acme University" =
    ["acmeuniversity.edu", "acmeuniversity.gov", "acmeuniversity.ac",
     "acmeuniversity.org", "acmeuniversity.com", "acmeuniversity.net"] := by decide

/-! ## The search harvester: `_fetch_search_snippets` (lines 160-206)

The SERP and the fetched result pages are oracles: each scraped link is a
`SearchLink` carrying the hostname `urlparse` would produce and the page
fetch outcome (`.error` = the request raised inside the inner `try`).
`_snippet_from_html` is BeautifulSoup-driven and enters as the `snippet`
oracle; `_extract_date` is pure regex + `strptime` and is modelled
faithfully. -/

/-- One organic result link of the SERP. -/
structure SearchLink where
  hostname : String
  page : Except String String

/-- `_RECENT_DAYS` (line 32). -/
def RECENT_DAYS : Nat := 365

/-- The TLD quality filter (line 178): the hostname must end in `"." + tld`
or equal the bare tld for some allowed tld. -/
def tldOk (domain : String) : Bool :=
  TLDS.any fun t => pyEndsWith domain ("." ++ t) || domain == t

/-- Gregorian leap year. -/
def isLeap (y : Nat) : Bool :=
  y % 4 = 0 && (y % 100 ≠ 0 || y % 400 = 0)

/-- Days in a month. -/
def daysInMonth (y m : Nat) : Nat :=
  if m = 2 then (if isLeap y then 29 else 28)
  else if m = 4 || m = 6 || m = 9 || m = 11 then 30 else 31

/-- Validity of `datetime.strptime(s, "%Y-%m-%d")` on a regex-shaped match:
year within `MINYEAR..MAXYEAR`, month 1-12, day fitting the month. -/
def validDate (y m d : Nat) : Bool :=
  1 ≤ y && y ≤ 9999 && 1 ≤ m && m ≤ 12 && 1 ≤ d && d ≤ daysInMonth y m

/-- Numeric value of an ASCII digit. -/
def digitVal (c : Char) : Nat := c.toNat - 48

/-- Match the regex `\d{4}-\d{2}-\d{2}` at the head of the character
list, returning the numeric fields. -/
def dateAt : List Char → Option (Nat × Nat × Nat)
  | a :: b :: c :: d :: s1 :: e :: f :: s2 :: g :: h :: _ =>
    if a.isDigit ∧ b.isDigit ∧ c.isDigit ∧ d.isDigit ∧ s1 = '-' ∧
       e.isDigit ∧ f.isDigit ∧ s2 = '-' ∧ g.isDigit ∧ h.isDigit then
      some (((digitVal a * 10 + digitVal b) * 10 + digitVal c) * 10 + digitVal d,
            digitVal e * 10 + digitVal f,
            digitVal g * 10 + digitVal h)
    else none
  | _ => none

/-- `re.search`: the leftmost match of the date pattern. -/
def findDate : List Char → Option (Nat × Nat × Nat)
  | [] => none
  | c :: rest =>
    match dateAt (c :: rest) with
    | some d => some d
    | none => findDate rest

/-- `_extract_date` (lines 198-206): the FIRST `\d{4}-\d{2}-\d{2}` match
anywhere in the page body, and `None` when that single match fails
`strptime` validation — no later match is ever examined. -/
def extract_date (html : String) : Option (Nat × Nat × Nat) :=
  match findDate html.toList with
  | some (y, m, d) => if validDate y m d then some (y, m, d) else none
  | none => none

/-- Day number of a civil date (days since 1970-01-01, Gregorian), the
standard era-based computation; models `datetime` subtraction, whose
`.days` for `utcnow() - datetime(y, m, d)` is the difference of the two
civil day numbers. -/
def dayNumber : Nat × Nat × Nat → Int
  | (y, m, d) =>
    let y2 : Nat := if m ≤ 2 then y - 1 else y
    let era : Nat := y2 / 400
    let yoe : Nat := y2 % 400
    let mp : Nat := if 2 < m then m - 3 else m + 9
    let doy : Nat := (153 * mp + 2) / 5 + d - 1
    let doe : Nat := yoe * 365 + yoe / 4 - yoe / 100 + doy
    (era * 146097 + doe : Int) - 719468

example : dayNumber (1970, 1, 1) = 0 := by decide
example : dayNumber (2000, 3, 1) = 11017 := by decide

/-- The freshness test of line 185: a date was found in the body and
`(utcnow() - date).days > _RECENT_DAYS`, where `nowDays` is the civil day
number of the current UTC date. -/
def isTooOld (nowDays : Int) (body : String) : Bool :=
  match extract_date body with
  | some d => decide ((RECENT_DAYS : Int) < nowDays - dayNumber d)
  | none => false

/-- The scan loop of `_fetch_search_snippets` (lines 175-193): skip links
failing the TLD filter, skip pages whose fetch raised, skip stale pages,
append nonempty snippets and break once `kq` snippets are picked. -/
def searchLoop (snippet : String → String) (nowDays : Int) (kq : Nat) :
    List SearchLink → Nat → List String → List String
  | [], _, acc => acc
  | l :: rest, picked, acc =>
    if tldOk l.hostname then
      match l.page with
      | .error _ => searchLoop snippet nowDays kq rest picked acc
      | .ok body =>
        if isTooOld nowDays body then searchLoop snippet nowDays kq rest picked acc
        else
          let txt := snippet body
          let picked2 := if txt ≠ "" then picked + 1 else picked
          let acc2 := if txt ≠ "" then acc ++ [txt] else acc
          if kq ≤ picked2 then acc2
          else searchLoop snippet nowDays kq rest picked2 acc2
    else searchLoop snippet nowDays kq rest picked acc

/-- `_fetch_search_snippets` (lines 160-195): serve from cache under
`("search", inst.lower())`; otherwise scan the top 20 SERP links with
`searchLoop` (the default keep target is `k = 8`), join the accepted
snippets with newlines, cache and return.  Returns the text and the new
cache state. -/
def fetch_search_snippets (snippet : String → String) (nowDays : Int)
    (links : List SearchLink) (kq : Nat) (m : Memo) (inst : String) :
    String × Memo :=
  let key : CKey := ("search", pyLower inst)
  match dictGet m key with
  | some c => (c, m)
  | none =>
    let out := joinWith "\n" (searchLoop snippet nowDays kq (links.take 20) 0 [])
    (out, memoize MEMO_LIMIT m key out)

/-! ## Cost of the source loop (lines 66-78)

`collect` runs its fetchers in a plain sequential `for` loop: each call
`fn(institution)` completes before the next begins.  `collectTime`
instruments that loop with a latency oracle giving each registered source
kind the duration of its fetch (`none` = unregistered kind, which is
skipped without fetching); the elapsed time of the loop is the sum of the
per-iteration latencies. -/

def collectTime (latency : String → Option Nat) : List String → Nat
  | [] => 0
  | src :: rest =>
    (match latency src with
     | none => 0
     | some t => t) + collectTime latency rest

/-! ## Lemmas about `pyShorten` -/

theorem append_space_ne (a w : String) : a ++ " " ++ w ≠ "" := by
  intro hc
  have hlen : (a ++ " " ++ w).length = ("" : String).length :=
    congrArg String.length hc
  rw [String.length_append, String.length_append] at hlen
  have h1 : (" " : String).length = 1 := rfl
  have h0 : ("" : String).length = 0 := rfl
  omega

/-- `pyShorten` never errors for a positive width. -/
theorem pyShorten_ok (text : String) (width : Nat) (h : width ≠ 0) :
    ∃ r, pyShorten text width = .ok r := by
  unfold pyShorten
  simp only [h, if_false]
  split
  · exact ⟨_, rfl⟩
  · exact ⟨_, rfl⟩

/-! ## Lemmas about the merge loop of `collect` -/

/-- A caught fetcher exception contributes exactly what an empty-string
result contributes: nothing. -/
theorem processSource_error (acc : List String × List String) (e : String) :
    processSource acc (.error e) = processSource acc (.ok "") := rfl

/-- One loop iteration is a fold of `addLine` over the lines the source
contributes. -/
theorem sourceStep_eq (fetchers : Fetchers) (inst : String)
    (acc : List String × List String) (src : String) :
    sourceStep fetchers inst acc src = (linesOf fetchers inst src).foldl addLine acc := by
  unfold sourceStep linesOf
  cases hf : fetchers src with
  | none => rfl
  | some fn =>
    cases hr : fn inst with
    | error e => simp [processSource, hr]
    | ok txt => simp [processSource, hr]

/-- The source loop is a single fold of `addLine` over all contributed
lines in order. -/
theorem foldl_sourceStep (fetchers : Fetchers) (inst : String) :
    ∀ (sources : List String) (acc : List String × List String),
      sources.foldl (sourceStep fetchers inst) acc =
        ((sources.map (linesOf fetchers inst)).flatten).foldl addLine acc := by
  intro sources
  induction sources with
  | nil => intro acc; rfl
  | cons src rest ih =>
    intro acc
    rw [List.foldl_cons, ih, sourceStep_eq, List.map_cons, List.flatten_cons,
      List.foldl_append]

theorem firstDedup_nil : firstDedup [] = [] := by
  rw [firstDedup.eq_def]

theorem firstDedup_cons (x : String) (xs : List String) :
    firstDedup (x :: xs) = x :: firstDedup (xs.filter fun y => decide (y ≠ x)) := by
  rw [firstDedup.eq_def]

/-- The `seen`/`chunks` fold emits the first occurrence of each line not
yet seen, in order. -/
theorem foldl_addLine_eq :
    ∀ (ls seen chunks : List String),
      (ls.foldl addLine (seen, chunks)).2 =
        chunks ++ firstDedup (ls.filter fun y => decide (y ∉ seen)) := by
  intro ls
  induction ls with
  | nil => intro seen chunks; simp [firstDedup_nil]
  | cons l ls ih =>
    intro seen chunks
    by_cases hl : l ∈ seen
    · have hstep : addLine (seen, chunks) l = (seen, chunks) := by
        simp [addLine, hl]
      rw [List.foldl_cons, hstep, ih, List.filter_cons]
      simp [hl]
    · have hstep : addLine (seen, chunks) l = (l :: seen, chunks ++ [l]) := by
        simp [addLine, hl]
      have hfilter : ls.filter (fun y => decide (y ∉ l :: seen)) =
          (ls.filter fun y => decide (y ∉ seen)).filter fun y => decide (y ≠ l) := by
        rw [List.filter_filter]
        apply List.filter_congr
        intro y _
        by_cases h1 : y = l <;> by_cases h2 : y ∈ seen <;> simp [h1, h2]
      rw [List.foldl_cons, hstep, ih, List.filter_cons]
      have hd : decide (l ∉ seen) = true := by simp [hl]
      rw [hd, if_pos rfl, firstDedup_cons, hfilter, List.append_assoc,
        List.singleton_append]

/-- Membership in the first-occurrence dedup is membership in the input. -/
theorem mem_firstDedup : ∀ (l : List String) (x : String),
    x ∈ firstDedup l ↔ x ∈ l := by
  intro l
  induction l using firstDedup.induct with
  | case1 => intro x; simp [firstDedup_nil]
  | case2 a as ih =>
    intro x
    rw [firstDedup_cons]
    by_cases hx : x = a
    · simp [hx]
    · simp only [List.mem_cons, hx, false_or]
      rw [ih]
      simp [List.mem_filter, hx]

/-- The first-occurrence dedup has no duplicates. -/
theorem nodup_firstDedup : ∀ l : List String, (firstDedup l).Nodup := by
  intro l
  induction l using firstDedup.induct with
  | case1 => simp [firstDedup_nil]
  | case2 a as ih =>
    rw [firstDedup_cons]
    refine List.nodup_cons.mpr ⟨?_, ih⟩
    intro hmem
    have := (mem_firstDedup _ a).mp hmem
    simp [List.mem_filter] at this

/-! ## Lemmas about the memo cache -/

theorem dictGet_dictSet_self : ∀ (m : Memo) (k : CKey) (v : String),
    dictGet (dictSet m k v) k = some v := by
  intro m k v
  induction m with
  | nil => simp [dictSet, dictGet]
  | cons e rest ih =>
    by_cases h : e.1 = k
    · simp [dictSet, h, dictGet]
    · simp [dictSet, h, dictGet, ih]

theorem dictSet_of_not_mem : ∀ (m : Memo) (k : CKey) (v : String),
    k ∉ m.map Prod.fst → dictSet m k v = m ++ [(k, v)] := by
  intro m k v hk
  induction m with
  | nil => rfl
  | cons e rest ih =>
    simp only [List.map_cons, List.mem_cons] at hk
    push_neg at hk
    have h1 : e.1 ≠ k := fun h => hk.1 h.symm
    simp [dictSet, h1, ih hk.2]

theorem dictSet_length_of_mem : ∀ (m : Memo) (k : CKey) (v : String),
    k ∈ m.map Prod.fst → (dictSet m k v).length = m.length := by
  intro m k v hk
  induction m with
  | nil => simp at hk
  | cons e rest ih =>
    by_cases h : e.1 = k
    · simp [dictSet, h]
    · simp only [List.map_cons, List.mem_cons] at hk
      rcases hk with hk | hk
      · exact absurd hk.symm h
      · simp [dictSet, h, ih hk]

theorem dictSet_length_le : ∀ (m : Memo) (k : CKey) (v : String),
    (dictSet m k v).length ≤ m.length + 1 := by
  intro m k v
  induction m with
  | nil => simp [dictSet]
  | cons e rest ih =>
    by_cases h : e.1 = k
    · simp [dictSet, h]
    · simp only [dictSet, h, if_false, List.length_cons]
      omega

theorem mem_map_fst_dictSet : ∀ (m : Memo) (k : CKey) (v : String) (x : CKey),
    x ∈ (dictSet m k v).map Prod.fst → x = k ∨ x ∈ m.map Prod.fst := by
  intro m k v x hx
  induction m with
  | nil => simp [dictSet] at hx; exact Or.inl hx
  | cons e rest ih =>
    by_cases h : e.1 = k
    · simp only [dictSet, h, if_true, List.map_cons, List.mem_cons] at hx
      rcases hx with hx | hx
      · exact Or.inl hx
      · exact Or.inr (by simp [hx])
    · simp only [dictSet, h, if_false, List.map_cons, List.mem_cons] at hx
      rcases hx with hx | hx
      · exact Or.inr (by simp [hx])
      · rcases ih hx with h2 | h2
        · exact Or.inl h2
        · exact Or.inr (by simp [h2])

theorem map_fst_dictSet_of_mem : ∀ (m : Memo) (k : CKey) (v : String),
    k ∈ m.map Prod.fst → (dictSet m k v).map Prod.fst = m.map Prod.fst := by
  intro m k v hk
  induction m with
  | nil => simp at hk
  | cons e rest ih =>
    by_cases h : e.1 = k
    · simp [dictSet, h]
    · simp only [List.map_cons, List.mem_cons] at hk
      rcases hk with hk | hk
      · exact absurd hk.symm h
      · simp [dictSet, h, ih hk]

theorem nodup_dictSet : ∀ (m : Memo) (k : CKey) (v : String),
    (m.map Prod.fst).Nodup → ((dictSet m k v).map Prod.fst).Nodup := by
  intro m k v hnd
  induction m with
  | nil => simp [dictSet]
  | cons e rest ih =>
    simp only [List.map_cons, List.nodup_cons] at hnd
    by_cases h : e.1 = k
    · subst h
      simpa [dictSet] using hnd
    · simp only [dictSet, h, if_false, List.map_cons, List.nodup_cons]
      refine ⟨?_, ih hnd.2⟩
      intro hmem
      rcases mem_map_fst_dictSet rest k v e.1 hmem with h2 | h2
      · exact h h2
      · exact hnd.1 h2

theorem memoize_of_lt (limit : Nat) (m : Memo) (k : CKey) (v : String)
    (h : m.length < limit) : memoize limit m k v = dictSet m k v := by
  simp [memoize, Nat.not_le.mpr h]

theorem memoize_of_ge (limit : Nat) (m : Memo) (k : CKey) (v : String)
    (h : limit ≤ m.length) : memoize limit m k v = dictSet (m.drop 1) k v := by
  simp [memoize, h]

/-- Size bound and key uniqueness are preserved by every cache write. -/
theorem memoize_invariant (limit : Nat) (m : Memo) (k : CKey) (v : String)
    (h1 : 1 ≤ limit) (h2 : m.length ≤ limit) (hnd : (m.map Prod.fst).Nodup) :
    (memoize limit m k v).length ≤ limit ∧
      ((memoize limit m k v).map Prod.fst).Nodup := by
  by_cases hge : limit ≤ m.length
  · have hlen : m.length = limit := Nat.le_antisymm h2 hge
    rw [memoize_of_ge limit m k v hge]
    have hdnd : ((m.drop 1).map Prod.fst).Nodup := by
      rw [List.map_drop]
      exact (List.drop_sublist 1 _).nodup hnd
    constructor
    · have := dictSet_length_le (m.drop 1) k v
      have hd : (m.drop 1).length = m.length - 1 := List.length_drop 1 m
      omega
    · exact nodup_dictSet _ k v hdnd
  · rw [memoize_of_lt limit m k v (Nat.not_le.mp hge)]
    constructor
    · have := dictSet_length_le m k v
      omega
    · exact nodup_dictSet m k v hnd

/-- Filling the cache through `memoize` keeps a sliding window: the result
is the suffix of `previous state ++ written pairs` that fits the capacity
(all keys distinct and fresh). -/
theorem insertAll_window :
    ∀ (pairs : Memo) (limit : Nat) (m : Memo), 1 ≤ limit → m.length ≤ limit →
      ((m ++ pairs).map Prod.fst).Nodup →
      insertAll limit m pairs = (m ++ pairs).drop ((m ++ pairs).length - limit) := by
  intro pairs
  induction pairs with
  | nil =>
    intro limit m h1 h2 hnd
    have : m.length - limit = 0 := Nat.sub_eq_zero_of_le h2
    simp [insertAll, this]
  | cons p rest ih =>
    intro limit m h1 h2 hnd
    have hfresh : p.1 ∉ m.map Prod.fst := by
      rw [List.map_append] at hnd
      rcases List.nodup_append.mp hnd with ⟨_, _, hdisj⟩
      intro hmem
      exact hdisj hmem (by simp)
    have hstep : insertAll limit m (p :: rest) =
        insertAll limit (memoize limit m p.1 p.2) rest := rfl
    by_cases hge : limit ≤ m.length
    · have hlen : m.length = limit := Nat.le_antisymm h2 hge
      cases m with
      | nil => simp at hlen; omega
      | cons q mt =>
        have hmem2 : memoize limit (q :: mt) p.1 p.2 = mt ++ [p] := by
          rw [memoize_of_ge limit _ p.1 p.2 hge]
          have : p.1 ∉ mt.map Prod.fst := by
            intro hm
            exact hfresh (by simp [hm])
          simpa [List.drop_one] using dictSet_of_not_mem mt p.1 p.2 this
        rw [hstep, hmem2]
        have hnd2 : ((mt ++ [p] ++ rest).map Prod.fst).Nodup := by
          have : ((q :: mt ++ p :: rest).map Prod.fst).Nodup := hnd
          simp only [List.cons_append, List.map_cons, List.nodup_cons] at this
          simpa [List.append_assoc] using this.2
        have h2b : (mt ++ [p]).length ≤ limit := by
          simp only [List.length_cons] at hlen
          simp only [List.length_append, List.length_cons, List.length_nil]
          omega
        have := ih limit (mt ++ [p]) h1 h2b hnd2
        rw [this]
        have harr : mt ++ [p] ++ rest = mt ++ p :: rest := by
          rw [List.append_assoc, List.singleton_append]
        rw [harr]
        have hq : q :: mt ++ p :: rest = q :: (mt ++ p :: rest) := rfl
        rw [hq]
        have hlens : (q :: (mt ++ p :: rest)).length - limit =
            ((mt ++ p :: rest).length - limit) + 1 := by
          simp only [List.length_cons, List.length_append] at hlen ⊢
          omega
        rw [hlens, List.drop_succ_cons]
    · have hlt : m.length < limit := Nat.not_le.mp hge
      have hmem2 : memoize limit m p.1 p.2 = m ++ [p] := by
        rw [memoize_of_lt limit m p.1 p.2 hlt]
        exact dictSet_of_not_mem m p.1 p.2 hfresh
      rw [hstep, hmem2]
      have hnd2 : ((m ++ [p] ++ rest).map Prod.fst).Nodup := by
        simpa [List.append_assoc] using hnd
      have h2b : (m ++ [p]).length ≤ limit := by
        simp only [List.length_append, List.length_cons, List.length_nil]
        omega
      have := ih limit (m ++ [p]) h1 h2b hnd2
      rw [this, List.append_assoc, List.singleton_append]

/-! ## Claim theorems -/

/-- C1: for every query string and every sources list, `collect` returns a
string and never raises: a source kind with no registered fetcher is
skipped (its presence anywhere in the list does not change the result),
and an exception raised by a fetcher is caught and contributes exactly
what an empty-string result would, never aborting the call or affecting
other sources' contributions.  (The collector's `max_chars` is positive —
the default is 4096.) -/
theorem spec_c1_collect_never_raises :
    ∀ (fetchers : Fetchers) (sources : List String) (inst : String) (maxChars : Nat),
      1 ≤ maxChars →
      (∃ s, collect fetchers sources inst maxChars = .ok s) ∧
      (∀ (xs ys : List String) (src : String), fetchers src = none →
        collect fetchers (xs ++ src :: ys) inst maxChars =
          collect fetchers (xs ++ ys) inst maxChars) ∧
      (∀ (acc : List String × List String) (e : String),
        processSource acc (.error e) = processSource acc (.ok "")) := by
  intro fetchers sources inst maxChars h
  refine ⟨?_, ?_, fun acc e => processSource_error acc e⟩
  · have hcol : collect fetchers sources inst maxChars =
        if maxChars < (joinWith "\n" (collectChunks fetchers sources inst)).length
        then pyShorten (joinWith "\n" (collectChunks fetchers sources inst)) maxChars
        else .ok (joinWith "\n" (collectChunks fetchers sources inst)) := rfl
    rw [hcol]
    by_cases hc : maxChars < (joinWith "\n" (collectChunks fetchers sources inst)).length
    · rw [if_pos hc]
      exact pyShorten_ok _ maxChars (by omega)
    · rw [if_neg hc]
      exact ⟨_, rfl⟩
  · intro xs ys src hsrc
    have hchunks : collectChunks fetchers (xs ++ src :: ys) inst =
        collectChunks fetchers (xs ++ ys) inst := by
      unfold collectChunks
      rw [List.foldl_append, List.foldl_append, List.foldl_cons]
      have hskip : sourceStep fetchers inst
          (List.foldl (sourceStep fetchers inst) ([], []) xs) src =
          List.foldl (sourceStep fetchers inst) ([], []) xs := by
        simp [sourceStep, hsrc]
      rw [hskip]
    unfold collect
    rw [hchunks]

/-- A dispatch table with one raising fetcher, one unknown kind in the
request list and one healthy fetcher, for the C1 witness. -/
def fetchersC1 : Fetchers := fun s =>
  if s = "wikipedia" then some (fun _ => .error "ConnectionError")
  else if s = "search" then some (fun _ => .ok "Result line") else none

theorem spec_c1_collect_never_raises_witness :
    ∃ s, collect fetchersC1 ["wikipedia", "bogus", "search"] "Acme" 4096 = .ok s :=
  (spec_c1_collect_never_raises fetchersC1 ["wikipedia", "bogus", "search"]
    "Acme" 4096 (by decide)).1

/-- Latency oracle for the C2 counterexample: two registered sources, one
time unit each. -/
def latencyC2 : String → Option Nat := fun s =>
  if s = "wikipedia" then some 1 else if s = "wikidata" then some 1 else none

/-- C2 counterexample: with two configured sources of latency 1 each, the
sequential source loop of `collect` takes 2 time units, strictly more than
the slowest single source (1) — the fetches do not run concurrently and
total latency is not bounded by the slowest source. -/
theorem spec_c2_not_concurrent :
    collectTime latencyC2 ["wikipedia", "wikidata"] = 2 ∧
    (["wikipedia", "wikidata"].map fun s => (latencyC2 s).getD 0).foldr max 0 = 1 ∧
    ¬ collectTime latencyC2 ["wikipedia", "wikidata"] ≤ 1 := by
  refine ⟨rfl, rfl, by decide⟩

/-- C2 amended: the source fetches of one `collect` call run sequentially
in source-list order, so the loop's total latency is the SUM of the
configured sources' fetch latencies (unregistered kinds contributing
nothing), not the maximum. -/
theorem spec_c2_sequential_sum :
    ∀ (latency : String → Option Nat) (sources : List String),
      collectTime latency sources =
        (sources.map fun s => (latency s).getD 0).sum := by
  intro latency sources
  induction sources with
  | nil => rfl
  | cons src rest ih =>
    cases h : latency src <;> simp [collectTime, h, ih]

/-- C4: the merge step of `collect` strips each source's lines, drops empty
ones, and appends a line only the first time its exact text is seen while
iterating sources in requested order and lines in original order: the
emitted chunks are exactly the first-occurrence dedup of all contributed
lines (so a line produced by two sources appears once, at the position its
first producer gave it), the chunks are duplicate-free, and every
contributed line appears exactly once. -/
theorem spec_c4_dedup :
    ∀ (fetchers : Fetchers) (sources : List String) (inst : String),
      collectChunks fetchers sources inst =
        firstDedup (sourceLines fetchers sources inst) ∧
      (collectChunks fetchers sources inst).Nodup ∧
      (∀ line ∈ sourceLines fetchers sources inst,
        (collectChunks fetchers sources inst).count line = 1) := by
  intro fetchers sources inst
  have heq : collectChunks fetchers sources inst =
      firstDedup (sourceLines fetchers sources inst) := by
    unfold collectChunks sourceLines
    rw [foldl_sourceStep, foldl_addLine_eq]
    have hfil : ((List.map (linesOf fetchers inst) sources).flatten.filter
        fun y => decide (y ∉ ([] : List String))) =
        (List.map (linesOf fetchers inst) sources).flatten := by
      apply List.filter_eq_self.mpr
      intro a _
      simp
    rw [hfil, List.nil_append]
  refine ⟨heq, ?_, ?_⟩
  · rw [heq]; exact nodup_firstDedup _
  · intro line hline
    rw [heq]
    exact List.count_eq_one_of_mem (nodup_firstDedup _)
      ((mem_firstDedup _ line).mpr hline)

/-- Two sources contributing the same trimmed lines in different orders,
for the C4 witness. -/
def fetchersC4 : Fetchers := fun s =>
  if s = "alpha" then some (fun _ => .ok "X
Y")
  else if s = "beta" then some (fun _ => .ok "Y
X") else none

theorem spec_c4_dedup_witness :
    "X" ∈ sourceLines fetchersC4 ["alpha", "beta"] "Acme" ∧
    (collectChunks fetchersC4 ["alpha", "beta"] "Acme").count "X" = 1 :=
  ⟨by decide, (spec_c4_dedup fetchersC4 ["alpha", "beta"] "Acme").2.2 "X" (by decide)⟩

/-- Success path of the wikipedia fetcher: on a cache miss with a non-error
status (anything below 400), the fetcher issues one request, returns the
extract and stores it under `("wiki", lowercased query)`.  Shared helper
for the cache and encoding claims. -/
theorem fetch_wiki_success (net : String → WikiResp) (m : Memo) (inst : String)
    (hmiss : dictGet m ("wiki", pyLower inst) = none)
    (hok : (net (wikiURL inst)).status < 400) :
    fetch_wikipedia_summary net m inst =
      (.ok (net (wikiURL inst)).extract,
       memoize MEMO_LIMIT m ("wiki", pyLower inst) (net (wikiURL inst)).extract,
       1) := by
  have h404 : ¬ (net (wikiURL inst)).status = 404 := by omega
  have hrange : ¬ (400 ≤ (net (wikiURL inst)).status ∧
      (net (wikiURL inst)).status < 600) := by omega
  simp only [fetch_wikipedia_summary]
  rw [hmiss]
  simp [h404, hrange]

/-- A wikipedia oracle that always reports not-found, for the C5
counterexample. -/
def net404 : String → WikiResp := fun _ => ⟨404, ""⟩

/-- C5 counterexample: with upstream reporting not-found, fetching the same
(source, normalized query) twice issues a network call BOTH times — the
404 path (data_collector.py line 101-102) returns the empty string without
writing it to the cache, so the cache stays empty and the second fetch
contacts the network again, contradicting "at most one network call". -/
theorem spec_c5_not_found_not_cached :
    (fetch_wikipedia_summary net404 [] "Ghost").1 = .ok "" ∧
    (fetch_wikipedia_summary net404 [] "Ghost").2.1 = [] ∧
    (fetch_wikipedia_summary net404 [] "Ghost").2.2 = 1 ∧
    (fetch_wikipedia_summary net404
      (fetch_wikipedia_summary net404 [] "Ghost").2.1 "Ghost").2.2 = 1 :=
  ⟨rfl, rfl, rfl, rfl⟩

/-- C5 amended: fetching the same (source, normalized query) twice on the
same collector triggers at most one network call when the first fetch
succeeds (status below 400): the first result is stored in the cache and
the second fetch returns the cached value with zero network calls and an
unchanged cache.  (A not-found empty result — and likewise the empty
string of a fully failed homepage resolution, line 276 — is returned
WITHOUT being cached, so only successful results enjoy the guarantee.) -/
theorem spec_c5_cache_hit :
    ∀ (net : String → WikiResp) (m : Memo) (inst : String),
      dictGet m ("wiki", pyLower inst) = none →
      (net (wikiURL inst)).status < 400 →
      (fetch_wikipedia_summary net m inst).2.2 = 1 ∧
      (fetch_wikipedia_summary net m inst).1 = .ok (net (wikiURL inst)).extract ∧
      (fetch_wikipedia_summary net
        (fetch_wikipedia_summary net m inst).2.1 inst).2.2 = 0 ∧
      (fetch_wikipedia_summary net
        (fetch_wikipedia_summary net m inst).2.1 inst).1 =
        (fetch_wikipedia_summary net m inst).1 ∧
      (fetch_wikipedia_summary net
        (fetch_wikipedia_summary net m inst).2.1 inst).2.1 =
        (fetch_wikipedia_summary net m inst).2.1 := by
  intro net m inst hmiss hok
  have hfirst := fetch_wiki_success net m inst hmiss hok
  have hget : dictGet
      (memoize MEMO_LIMIT m ("wiki", pyLower inst) (net (wikiURL inst)).extract)
      ("wiki", pyLower inst) = some (net (wikiURL inst)).extract := by
    unfold memoize
    exact dictGet_dictSet_self _ _ _
  have hsecond : fetch_wikipedia_summary net
      (memoize MEMO_LIMIT m ("wiki", pyLower inst) (net (wikiURL inst)).extract)
      inst =
      (.ok (net (wikiURL inst)).extract,
       memoize MEMO_LIMIT m ("wiki", pyLower inst) (net (wikiURL inst)).extract,
       0) := by
    simp only [fetch_wikipedia_summary]
    rw [hget]
  simp [hfirst, hsecond]

/-- A wikipedia oracle that always succeeds, for the cache witnesses. -/
def net200 : String → WikiResp := fun _ => ⟨200, "Acme is a university."⟩

theorem spec_c5_cache_hit_witness :
    (fetch_wikipedia_summary net200 [] "Acme").2.2 = 1 ∧
    (fetch_wikipedia_summary net200 [] "Acme").1 = .ok (net200 (wikiURL "Acme")).extract ∧
    (fetch_wikipedia_summary net200
      (fetch_wikipedia_summary net200 [] "Acme").2.1 "Acme").2.2 = 0 ∧
    (fetch_wikipedia_summary net200
      (fetch_wikipedia_summary net200 [] "Acme").2.1 "Acme").1 =
      (fetch_wikipedia_summary net200 [] "Acme").1 ∧
    (fetch_wikipedia_summary net200
      (fetch_wikipedia_summary net200 [] "Acme").2.1 "Acme").2.1 =
      (fetch_wikipedia_summary net200 [] "Acme").2.1 :=
  spec_c5_cache_hit net200 [] "Acme" rfl (by decide)

/-- C6: the cache holds at most one entry per key and is a strict bounded
FIFO with the default capacity 512: every write preserves the size bound
and key uniqueness, and writing `capacity + 1` distinct fresh keys into an
empty cache evicts exactly the first-inserted entry and no other (the
reads of `_memoize` are pure lookups and promote nothing). -/
theorem spec_c6_cache_fifo :
    MEMO_LIMIT = 512 ∧
    (∀ (limit : Nat) (m : Memo) (k : CKey) (v : String),
      1 ≤ limit → m.length ≤ limit → (m.map Prod.fst).Nodup →
      (memoize limit m k v).length ≤ limit ∧
        ((memoize limit m k v).map Prod.fst).Nodup) ∧
    (∀ (limit : Nat) (pairs : Memo),
      1 ≤ limit → (pairs.map Prod.fst).Nodup → pairs.length = limit + 1 →
      insertAll limit [] pairs = pairs.drop 1) := by
  refine ⟨rfl, fun limit m k v h1 h2 h3 => memoize_invariant limit m k v h1 h2 h3, ?_⟩
  intro limit pairs h1 hnd hlen
  have hw := insertAll_window pairs limit [] h1 (by simp) (by simpa using hnd)
  rw [List.nil_append] at hw
  rw [hw, hlen]
  congr 1
  omega

/-- Three distinct keys through a capacity-2 cache, for the C6 witness. -/
def pairsC6 : Memo := [(("a", ""), "1"), (("b", ""), "2"), (("c", ""), "3")]

theorem spec_c6_cache_fifo_witness :
    insertAll 2 [] pairsC6 = pairsC6.drop 1 :=
  spec_c6_cache_fifo.2.2 2 pairsC6 (by decide) (by decide) (by decide)

/-- C10 (implicit): a cache write at capacity evicts the oldest entry even
when the key being written is already present: overwriting an existing
non-oldest key first pops the unrelated oldest entry and then updates the
key in place, so the cache SHRINKS by one entry (below capacity when it
was exactly full) instead of keeping its size. -/
theorem spec_c10_overwrite_evicts :
    ∀ (limit : Nat) (p0 : CKey × String) (mt : Memo) (k : CKey) (v : String),
      limit ≤ (p0 :: mt).length →
      ((p0 :: mt).map Prod.fst).Nodup →
      k ∈ mt.map Prod.fst →
      memoize limit (p0 :: mt) k v = dictSet mt k v ∧
      (memoize limit (p0 :: mt) k v).length = (p0 :: mt).length - 1 ∧
      p0.1 ∉ (memoize limit (p0 :: mt) k v).map Prod.fst ∧
      ((p0 :: mt).length = limit → (memoize limit (p0 :: mt) k v).length < limit) := by
  intro limit p0 mt k v hcap hnd hk
  have heq : memoize limit (p0 :: mt) k v = dictSet mt k v := by
    rw [memoize_of_ge limit _ k v hcap]
    rfl
  have hlen2 : (dictSet mt k v).length = mt.length := dictSet_length_of_mem mt k v hk
  have hkeys : (dictSet mt k v).map Prod.fst = mt.map Prod.fst :=
    map_fst_dictSet_of_mem mt k v hk
  have hout : p0.1 ∉ mt.map Prod.fst := by
    simp only [List.map_cons, List.nodup_cons] at hnd
    exact hnd.1
  refine ⟨heq, ?_, ?_, ?_⟩
  · rw [heq, hlen2]
    simp
  · rw [heq, hkeys]
    exact hout
  · intro hfull
    rw [heq, hlen2]
    simp only [List.length_cons] at hfull
    omega

theorem spec_c10_overwrite_evicts_witness :
    memoize 2 [(("a", ""), "1"), (("b", ""), "2")] ("b", "") "9" =
      dictSet [(("b", ""), "2")] ("b", "") "9" ∧
    (memoize 2 [(("a", ""), "1"), (("b", ""), "2")] ("b", "") "9").length =
      ([(("a", ""), "1"), (("b", ""), "2")] : Memo).length - 1 ∧
    ("a", "") ∉ (memoize 2 [(("a", ""), "1"), (("b", ""), "2")] ("b", "") "9").map Prod.fst ∧
    (([(("a", ""), "1"), (("b", ""), "2")] : Memo).length = 2 →
      (memoize 2 [(("a", ""), "1"), (("b", ""), "2")] ("b", "") "9").length < 2) :=
  spec_c10_overwrite_evicts 2 (("a", ""), "1") [(("b", ""), "2")] ("b", "") "9"
    (by decide) (by decide) (by decide)

/-- C7 counterexample: dbpedia does NOT send the literal query merely
URL-encoded — it first replaces spaces with underscores (line 146), so for
the query `"a b"` the slug sent upstream is `"a_b"` while the plain
URL-encoding of the literal query is `"a+b"`. -/
theorem spec_c7_dbpedia_transforms_query :
    dbpediaSlug "a b" = "a_b" ∧ quotePlus "a b" = "a+b" ∧
    dbpediaSlug "a b" ≠ quotePlus "a b" :=
  ⟨rfl, rfl, by decide⟩

/-- C7 amended: the query is normalized only for cache keying (the
wikipedia fetcher stores its result under `("wiki", lowercased query)`), and
the wikipedia request URL carries the literal query URL-encoded; dbpedia is
the exception: its upstream slug is the URL-encoding of the query with
spaces replaced by underscores, not of the literal query. -/
theorem spec_c7_query_encoding :
    ∀ (inst : String) (net : String → WikiResp),
      wikiURL inst =
        "https://en.wikipedia.org/api/rest_v1/page/summary/" ++ quotePlus inst ∧
      dbpediaSlug inst = quotePlus (pyReplaceChar ' ' '_' inst) ∧
      ((net (wikiURL inst)).status < 400 →
        dictGet (fetch_wikipedia_summary net [] inst).2.1 ("wiki", pyLower inst) =
          some (net (wikiURL inst)).extract) := by
  intro inst net
  refine ⟨rfl, rfl, ?_⟩
  intro hok
  have h := fetch_wiki_success net [] inst rfl hok
  simp only [h]
  unfold memoize
  exact dictGet_dictSet_self _ _ _

theorem spec_c7_query_encoding_witness :
    dictGet (fetch_wikipedia_summary net200 [] "Acme").2.1 ("wiki", pyLower "Acme") =
      some (net200 (wikiURL "Acme")).extract :=
  (spec_c7_query_encoding "Acme" net200).2.2 (by decide)

/-- C8 counterexample: for `"Acme University"` the candidate list, capped
at `_MAX_TRIES = 6`, consists solely of the primary slug's first six
domains: it contains `acmeuniversity.edu` but NOT `acme.edu` — the
alternate stripped slug never survives the cap, because the primary slug
is crossed with all 7 TLDs first. -/
theorem spec_c8_alternate_slug_capped :
    guess_domains "Acme University" =
      ["acmeuniversity.edu", "acmeuniversity.gov", "acmeuniversity.ac",
       "acmeuniversity.org", "acmeuniversity.com", "acmeuniversity.net"] ∧
    "acmeuniversity.edu" ∈ guess_domains "Acme University" ∧
    "acme.edu" ∉ guess_domains "Acme University" :=
  ⟨by decide, by decide, by decide⟩

/-- C8 amended: the query is normalized to a lowercase alphanumeric slug,
an alternate slug with a trailing "university" stripped is also generated,
slugs are crossed with the ordered TLD list and the list is capped at 6 —
but since the TLD list has 7 entries, the cap always truncates the list to
the primary slug's first six domains and the alternate slug contributes
nothing for any query. -/
theorem spec_c8_domains :
    ∀ name : String,
      guess_domains name =
        (TLDS.take MAX_TRIES).map (fun t => baseSlug name ++ "." ++ t) ∧
      (guess_domains name).length ≤ MAX_TRIES := by
  intro name
  have hmain : guess_domains name =
      (TLDS.take MAX_TRIES).map (fun t => baseSlug name ++ "." ++ t) := by
    simp only [guess_domains]
    by_cases h : pyEndsWith (baseSlug name) "university" = true
    · rw [if_pos h]
      rfl
    · rw [if_neg h]
      rfl
  refine ⟨hmain, ?_⟩
  rw [hmain]
  simp [TLDS, MAX_TRIES]

/-- Page body for the C9 counterexample: the first date-shaped substring is
recent, a later one is long stale. -/
def bodyC9 : String := "Update 2099-01-01 revising 2000-01-01 findings"

/-- Civil day number of 2026-10-12, a concrete "now" for C9. -/
def nowC9 : Int := dayNumber (2026, 10, 12)

/-- C9 counterexample: the page body CONTAINS a `YYYY-MM-DD` date
(`2000-01-01`) older than the 365-day window, yet its snippet is retained,
because `_extract_date` only ever examines the FIRST regex match
(`2099-01-01`, which is not older than the window). -/
theorem spec_c9_only_first_date_counts :
    "2000-01-01".toList <:+: bodyC9.toList ∧
    validDate 2000 1 1 = true ∧
    (RECENT_DAYS : Int) < nowC9 - dayNumber (2000, 1, 1) ∧
    (fetch_search_snippets (fun _ => "SNIP") nowC9
      [⟨"example.edu", .ok bodyC9⟩] 8 [] "acme").1 = "SNIP" :=
  ⟨by decide, rfl, by decide, rfl⟩

/-- C9 amended: for a fetched candidate page passing the TLD filter with a
nonempty snippet, the harvester keeps or drops it according to
`isTooOld`: the snippet is dropped exactly when the FIRST `YYYY-MM-DD`
regex match in the body parses as a valid date older than the 365-day
window before now; a page with no match, an unparsable first match, or a
first-match date inside the window is retained. -/
theorem spec_c9_freshness :
    ∀ (snippet : String → String) (nowDays : Int) (host body : String)
      (m : Memo) (inst : String) (kq : Nat),
      tldOk host = true →
      dictGet m ("search", pyLower inst) = none →
      snippet body ≠ "" →
      (fetch_search_snippets snippet nowDays [⟨host, .ok body⟩] kq m inst).1 =
        (if isTooOld nowDays body then "" else snippet body) := by
  intro snippet nowDays host body m inst kq htld hmiss hsnip
  have hloop : searchLoop snippet nowDays kq [⟨host, .ok body⟩] 0 [] =
      (if isTooOld nowDays body then [] else [snippet body]) := by
    by_cases hold : isTooOld nowDays body = true
    · simp [searchLoop, htld, hold]
    · by_cases hkq : kq ≤ 1
      · simp [searchLoop, htld, hold, hsnip, hkq]
      · simp [searchLoop, htld, hold, hsnip, hkq]
  simp only [fetch_search_snippets]
  rw [hmiss]
  have htake : ([⟨host, .ok body⟩] : List SearchLink).take 20 = [⟨host, .ok body⟩] := rfl
  rw [htake, hloop]
  by_cases hold : isTooOld nowDays body = true
  · simp [hold, joinWith]
  · simp [hold, joinWith]

theorem spec_c9_freshness_witness :
    (fetch_search_snippets (fun _ => "S") 0 [⟨"x.edu", .ok "hello"⟩] 8 [] "q").1 =
      (if isTooOld 0 "hello" then "" else (fun _ => "S") "hello") :=
  spec_c9_freshness (fun _ => "S") 0 "x.edu" "hello" [] "q" 8 (by decide) rfl
    (by decide)

/-! ## Sanity evaluations of the embedded definitions -/

example : quotePlus "a b" = "a+b" := rfl
example : dbpediaSlug "a b" = "a_b" := rfl
example : (fetch_wikipedia_summary (fun _ => ⟨404, ""⟩) [] "Ghost").2.2 = 1 := rfl
example : (fetch_wikipedia_summary (fun _ => ⟨404, ""⟩) [] "Ghost").1 = .ok "" := rfl
example : (fetch_wikipedia_summary (fun _ => ⟨404, ""⟩) [] "Ghost").2.1 = [] := rfl
example : (fetch_wikipedia_summary (fun _ => ⟨200, "X"⟩) [] "Q").2.1 = [(("wiki", "q"), "X")] := rfl
example : extract_date "Update 2099-01-01 revising 2000-01-01 findings" = some (2099, 1, 1) := rfl
example : dayNumber (2026, 10, 12) = 20738 := by decide
example : isTooOld (dayNumber (2026, 10, 12)) "Update 2099-01-01 revising 2000-01-01 findings" = false := rfl
example : (fetch_search_snippets (fun _ => "SNIP") (dayNumber (2026, 10, 12))
    [⟨"example.edu", .ok "Update 2099-01-01 revising 2000-01-01 findings"⟩] 8 [] "acme").1 = "SNIP" := rfl
example : tldOk "example.edu" = true := rfl
end DataCollector
